import Mathlib

/-!
Verification of the HuizenZoeker normalization / deduplication / change-tracking
core against its natural-language specification.

The Python sources are shallowly embedded:
* floats that only ever hold monetary amounts, areas and similarity scores are
  embedded as `ℚ` (the code performs only +, -, *, /, abs, max and comparisons
  on them, all exact in the source's value range);
* `None`-able fields become `Option`;
* Python truthiness on strings / optional strings (`if x:`) becomes an explicit
  `≠ ""` / `pyTruthy` test;
* the external `rapidfuzz.fuzz.token_sort_ratio` is embedded by its documented
  definition: whitespace-tokenize, sort tokens, join with single spaces, then
  the normalized InDel ratio `100 * 2 * lcs / (len1 + len2)`;
* `urllib.parse.urlparse` is embedded by the fragment of its behaviour the code
  consumes (the `netloc` and `path` components).
-/

namespace HuizenZoeker

/-- Python truthiness of an optional string: `None` and `""` are falsy. -/
def pyTruthy : Option String → Bool
  | none => false
  | some s => s ≠ ""

/-- Price quality labels (src/models.py is not among the sources; the
enumeration is reconstructed from §3/§4.1 of the spec and its uses in
pipeline.py and tests/test_dedupe.py). -/
inductive PriceQuality where
  | CONFIRMED
  | UNKNOWN
  deriving DecidableEq, Repr

/-- Modelled from the spec: src/models.py is not among the sources; the fields
and their optionality are reconstructed from §3 of the spec and from every use
in pipeline.py, dedupe/engine.py, normalizer/normalize.py and
tests/test_dedupe.py. -/
structure NormalizedListing where
  source : String
  source_id : Option String := none
  url : String := ""
  title : String := ""
  raw_location_text : String := ""
  neighborhood_match : Option String := none
  neighborhood_confidence : ℚ := 0
  price_total_eur : Option ℚ := none
  price_quality : PriceQuality := .UNKNOWN
  price_includes_service_costs : Bool := false
  gwl_included : Bool := false
  area_m2 : Option ℚ := none
  bedrooms : Option ℕ := none
  property_type : Option String := none
  available_from : Option String := none
  description_snippet : String := ""
  images_hash : Option String := none
  ambiguous_neighborhood : Bool := false
  deriving DecidableEq, Repr

/-- Modelled from the spec: the StoredListing row (src/models.py and
src/storage/database.py are not among the sources).  Only the fields that
pipeline.py reads from rows returned by `get_listings(conn, status="ACTIVE")`
are carried: the normalized content fields plus the `dedupe_id` tag (§3). -/
structure StoredListing where
  source : String
  source_id : Option String := none
  url : String := ""
  title : String := ""
  raw_location_text : String := ""
  neighborhood_match : Option String := none
  neighborhood_confidence : ℚ := 0
  price_total_eur : Option ℚ := none
  price_quality : PriceQuality := .UNKNOWN
  price_includes_service_costs : Bool := false
  gwl_included : Bool := false
  area_m2 : Option ℚ := none
  bedrooms : Option ℕ := none
  property_type : Option String := none
  available_from : Option String := none
  description_snippet : String := ""
  images_hash : Option String := none
  ambiguous_neighborhood : Bool := false
  dedupe_id : String := ""
  deriving DecidableEq, Repr

/-! ## Configuration (src/config.py) -/

/-- src/config.py line 39. -/
def MAX_PRICE_EUR : ℚ := 2500

/-- src/config.py line 103. -/
def DEDUPE_PRICE_TOLERANCE_EUR : ℚ := 50

/-- src/config.py line 104. -/
def DEDUPE_AREA_TOLERANCE_M2 : ℚ := 5

/-- src/config.py line 106. -/
def DEDUPE_COMBINED_THRESHOLD : ℚ := 70 / 100

/-- src/config.py line 109. -/
def REMOVED_AFTER_MISSING_RUNS : Nat := 2

/-! ## An embedding of `rapidfuzz.fuzz.token_sort_ratio`

The engine calls the external library function `fuzz.token_sort_ratio`, whose
documented behaviour is: split both strings on whitespace, sort the token
lists, join each with single spaces, and return the normalized InDel
similarity `100 * (1 - dist / (len1 + len2))` where
`dist = len1 + len2 - 2 * lcs` (`100.0` when both strings are empty). -/

/-- Length of a longest common subsequence of two character lists. -/
def lcs : List Char → List Char → Nat
  | [], _ => 0
  | _ :: _, [] => 0
  | a :: as, b :: bs =>
    if a = b then lcs as bs + 1
    else max (lcs (a :: as) bs) (lcs as (b :: bs))
termination_by s t => s.length + t.length

/-- Normalized InDel similarity on a 0–100 scale, as used by
`rapidfuzz.fuzz.ratio`. -/
def indelRatio (s t : List Char) : ℚ :=
  if s.length + t.length = 0 then 100
  else (200 * lcs s t : ℚ) / ((s.length : ℚ) + (t.length : ℚ))

/-- Split a character list into whitespace-separated tokens (empty tokens
dropped), as `str.split()` does. -/
def splitTokens (cs : List Char) : List (List Char) :=
  go cs []
where
  go : List Char → List Char → List (List Char)
    | [], acc => if acc.isEmpty then [] else [acc.reverse]
    | c :: rest, acc =>
      if c = ' ' ∨ c = '\t' ∨ c = '\n' ∨ c = '\r' then
        if acc.isEmpty then go rest [] else acc.reverse :: go rest []
      else go rest (c :: acc)

/-- Lexicographic comparison of tokens by character code, matching Python's
string ordering used by `sorted`. -/
def tokLe : List Char → List Char → Bool
  | [], _ => true
  | _ :: _, [] => false
  | a :: as, b :: bs => if a = b then tokLe as bs else decide (a < b)

/-- Insert a token into an already sorted token list. -/
def insertTok (x : List Char) : List (List Char) → List (List Char)
  | [] => [x]
  | y :: ys => if tokLe x y then x :: y :: ys else y :: insertTok x ys

/-- Insertion sort of a token list. -/
def sortToks : List (List Char) → List (List Char)
  | [] => []
  | x :: xs => insertTok x (sortToks xs)

/-- Join tokens with single spaces. -/
def joinTokens : List (List Char) → List Char
  | [] => []
  | [t] => t
  | t :: ts => t ++ ' ' :: joinTokens ts

/-- The token-sort preprocessing: split on whitespace, sort, re-join. -/
def tokenSortPrep (s : String) : List Char :=
  joinTokens (sortToks (splitTokens s.toList))

/-- Embedding of `rapidfuzz.fuzz.token_sort_ratio` (0–100 scale). -/
def token_sort_ratio (s t : String) : ℚ :=
  indelRatio (tokenSortPrep s) (tokenSortPrep t)

/-- Lowercase a string, as Python's `str.lower()` on the ASCII range used by
the code. -/
def pyLower (s : String) : String :=
  ⟨s.toList.map Char.toLower⟩

/-! ## src/dedupe/engine.py -/

/-- Character class of the regex `[:!-]` used in the title-prefix patterns. -/
def isSepPunct (c : Char) : Bool := c = ':' ∨ c = '!' ∨ c = '-'

/-- Whitespace characters recognised by the regexes (`\s`). -/
def isWs (c : Char) : Bool := c = ' ' ∨ c = '\t' ∨ c = '\n' ∨ c = '\r'

/-- Drop a literal word from the head of a character list, if present. -/
def dropWord : List Char → List Char → Option (List Char)
  | [], cs => some cs
  | _ :: _, [] => none
  | w :: ws, c :: cs => if w = c then dropWord ws cs else none

/-- Match `\s*` at the head (always succeeds, consuming greedily). -/
def dropWsStar (cs : List Char) : List Char :=
  match cs with
  | [] => []
  | c :: rest => if isWs c then dropWsStar rest else cs

/-- Match `\s+` at the head: at least one whitespace character. -/
def dropWsPlus (cs : List Char) : Option (List Char) :=
  match cs with
  | [] => none
  | c :: rest => if isWs c then some (dropWsStar rest) else none

/-- Match the tail `\s*[:!-]\s*` of each title-prefix regex. -/
def dropPunctTail (cs : List Char) : Option (List Char) :=
  match dropWsStar cs with
  | [] => none
  | c :: rest => if isSepPunct c then some (dropWsStar rest) else none

/-- Apply one of the title-prefix regexes `^word\s*[:!-]\s*` as `re.sub`
with an empty replacement: strip the prefix when it matches,
return the input unchanged otherwise. -/
def stripTitlePat (word : String) (cs : List Char) : List Char :=
  match dropWord word.toList cs with
  | none => cs
  | some rest =>
    match dropPunctTail rest with
    | none => cs
    | some rest' => rest'

/-- The first pattern `^te\s+huur\s*[:!-]\s*` needs `\s+` between the words. -/
def stripTeHuur (cs : List Char) : List Char :=
  match dropWord "te".toList cs with
  | none => cs
  | some r1 =>
    match dropWsPlus r1 with
    | none => cs
    | some r2 =>
      match dropWord "huur".toList r2 with
      | none => cs
      | some r3 =>
        match dropPunctTail r3 with
        | none => cs
        | some r4 => r4

/-- Collapse whitespace runs to single spaces (`re.sub(r"\s+", " ", ·)`). -/
def collapseWs : List Char → List Char
  | [] => []
  | c :: rest =>
    let tail := collapseWs rest
    if isWs c then
      match tail with
      | ' ' :: _ => tail
      | _ => ' ' :: tail
    else c :: tail

/-- Strip leading and trailing whitespace. -/
def stripWs (cs : List Char) : List Char :=
  ((cs.dropWhile (fun c => isWs c)).reverse.dropWhile (fun c => isWs c)).reverse

/-- Embedding of `_clean_title` (src/dedupe/engine.py lines 141–155):
lowercase, strip the four marketing prefixes in order, collapse whitespace. -/
def clean_title (title : String) : String :=
  let t0 := (pyLower title).toList
  let t1 := stripTeHuur t0
  let t2 := stripTitlePat "huurwoning" t1
  let t3 := stripTitlePat "appartement" t2
  let t4 := stripTitlePat "studio" t3
  ⟨stripWs (collapseWs t4)⟩

/-- Extract the portion of a URL after the first `://`, if any. -/
def afterSchemeSep : List Char → Option (List Char)
  | ':' :: '/' :: '/' :: rest => some rest
  | _ :: rest => afterSchemeSep rest
  | [] => none

/-- Embedding of the `netloc`/`path` components of
`urllib.parse.urlparse` (the only components src/dedupe/engine.py reads):
`netloc` is what follows `//` up to the next `/`, `?` or `#`; `path` runs
from there to the next `?` or `#`.  A URL with no scheme separator has an
empty netloc and its text up to `?`/`#` as path. -/
def urlNetlocPath (u : String) : String × String :=
  match afterSchemeSep u.toList with
  | some rest =>
    let netloc := rest.takeWhile (fun c => ¬ (c = '/' ∨ c = '?' ∨ c = '#'))
    let rest' := rest.dropWhile (fun c => ¬ (c = '/' ∨ c = '?' ∨ c = '#'))
    let path := rest'.takeWhile (fun c => ¬ (c = '?' ∨ c = '#'))
    (⟨netloc⟩, ⟨path⟩)
  | none =>
    ("", ⟨u.toList.takeWhile (fun c => ¬ (c = '?' ∨ c = '#'))⟩)

/-- Embedding of `_urls_same_property` (src/dedupe/engine.py lines 158–169):
same netloc and same path. -/
def urls_same_property (url_a url_b : String) : Bool :=
  let pa := urlNetlocPath url_a
  let pb := urlNetlocPath url_b
  decide (pa.1 = pb.1 ∧ pa.2 = pb.2)

/-- Score breakdown for a potential duplicate match
(src/dedupe/engine.py lines 20–30). -/
structure DedupeScore where
  title_sim : ℚ := 0
  price_sim : ℚ := 0
  area_sim : ℚ := 0
  url_match : Bool := false
  images_match : Bool := false
  address_sim : ℚ := 0
  combined : ℚ := 0
  deriving DecidableEq, Repr

/-- Title similarity component (src/dedupe/engine.py lines 43–46);
`if a.title and b.title` is Python truthiness on strings. -/
def titleSim (a b : NormalizedListing) : ℚ :=
  if a.title ≠ "" ∧ b.title ≠ "" then
    token_sort_ratio (clean_title a.title) (clean_title b.title) / 100
  else 0

/-- Price similarity component (src/dedupe/engine.py lines 49–54). -/
def priceSim (a b : NormalizedListing) : ℚ :=
  match a.price_total_eur, b.price_total_eur with
  | some pa, some pb =>
    let diff := |pa - pb|
    if diff ≤ DEDUPE_PRICE_TOLERANCE_EUR then
      1 - diff / max DEDUPE_PRICE_TOLERANCE_EUR 1
    else 0
  | none, none => 1 / 2
  | _, _ => 0

/-- Area similarity component (src/dedupe/engine.py lines 57–62). -/
def areaSim (a b : NormalizedListing) : ℚ :=
  match a.area_m2, b.area_m2 with
  | some pa, some pb =>
    let diff := |pa - pb|
    if diff ≤ DEDUPE_AREA_TOLERANCE_M2 then
      1 - diff / max DEDUPE_AREA_TOLERANCE_M2 1
    else 0
  | none, none => 3 / 10
  | _, _ => 0

/-- URL-match component (src/dedupe/engine.py lines 65–66). -/
def urlMatch (a b : NormalizedListing) : Bool :=
  if a.url ≠ "" ∧ b.url ≠ "" then urls_same_property a.url b.url else false

/-- Image-hash-match component (src/dedupe/engine.py lines 69–70);
`if a.images_hash and b.images_hash` is truthiness on optional strings. -/
def imagesMatch (a b : NormalizedListing) : Bool :=
  if pyTruthy a.images_hash ∧ pyTruthy b.images_hash then
    decide (a.images_hash = b.images_hash)
  else false

/-- Address similarity component (src/dedupe/engine.py lines 73–76). -/
def addressSim (a b : NormalizedListing) : ℚ :=
  if a.raw_location_text ≠ "" ∧ b.raw_location_text ≠ "" then
    token_sort_ratio (pyLower a.raw_location_text) (pyLower b.raw_location_text)
      / 100
  else 0

/-- Embedding of `compute_dedupe_score` (src/dedupe/engine.py lines 38–103):
the six weighted signals, then the two hard floors. -/
def compute_dedupe_score (a b : NormalizedListing) : DedupeScore :=
  let ts := titleSim a b
  let ps := priceSim a b
  let ars := areaSim a b
  let um := urlMatch a b
  let im := imagesMatch a b
  let ads := addressSim a b
  let weighted : ℚ :=
    25 / 100 * ts + 20 / 100 * ps + 15 / 100 * ars
      + 10 / 100 * (if um then 1 else 0)
      + 15 / 100 * (if im then 1 else 0)
      + 15 / 100 * ads
  let c1 := if im then max weighted (85 / 100) else weighted
  let c2 := if um then max c1 (90 / 100) else c1
  { title_sim := ts, price_sim := ps, area_sim := ars, url_match := um,
    images_match := im, address_sim := ads, combined := c2 }

/-! ## Symmetry lemmas for the score components -/

theorem lcs_comm_aux : ∀ n s t, s.length + t.length ≤ n → lcs s t = lcs t s := by
  intro n
  induction n with
  | zero =>
    intro s t h
    match s, t with
    | [], [] => rfl
    | [], _ :: _ => simp at h
    | _ :: _, _ => simp at h
  | succ n ih =>
    intro s t h
    match s, t with
    | [], [] => rfl
    | [], b :: bs => simp [lcs]
    | a :: as, [] => simp [lcs]
    | a :: as, b :: bs =>
      simp only [lcs]
      by_cases hab : a = b
      · rw [if_pos hab, if_pos hab.symm]
        have h1 : as.length + bs.length ≤ n := by
          simp only [List.length_cons] at h; omega
        rw [ih as bs h1]
      · rw [if_neg hab, if_neg (fun hba => hab hba.symm)]
        have h1 : (a :: as).length + bs.length ≤ n := by
          simp only [List.length_cons] at h ⊢; omega
        have h2 : as.length + (b :: bs).length ≤ n := by
          simp only [List.length_cons] at h ⊢; omega
        rw [ih (a :: as) bs h1, ih as (b :: bs) h2, Nat.max_comm]

theorem lcs_comm (s t : List Char) : lcs s t = lcs t s :=
  lcs_comm_aux (s.length + t.length) s t le_rfl

theorem indelRatio_comm (s t : List Char) : indelRatio s t = indelRatio t s := by
  unfold indelRatio
  rw [lcs_comm s t, Nat.add_comm s.length t.length,
    add_comm (s.length : ℚ) (t.length : ℚ)]

theorem token_sort_ratio_comm (s t : String) :
    token_sort_ratio s t = token_sort_ratio t s :=
  indelRatio_comm _ _

theorem titleSim_comm (a b : NormalizedListing) : titleSim a b = titleSim b a := by
  unfold titleSim
  by_cases ha : a.title = "" <;> by_cases hb : b.title = "" <;>
    simp [ha, hb, token_sort_ratio_comm]

theorem priceSim_comm (a b : NormalizedListing) : priceSim a b = priceSim b a := by
  unfold priceSim
  cases a.price_total_eur <;> cases b.price_total_eur <;> simp [abs_sub_comm]

theorem areaSim_comm (a b : NormalizedListing) : areaSim a b = areaSim b a := by
  unfold areaSim
  cases a.area_m2 <;> cases b.area_m2 <;> simp [abs_sub_comm]

theorem urls_same_property_comm (u v : String) :
    urls_same_property u v = urls_same_property v u := by
  unfold urls_same_property
  rw [decide_eq_decide]
  constructor <;> (rintro ⟨h1, h2⟩; exact ⟨h1.symm, h2.symm⟩)

theorem urlMatch_comm (a b : NormalizedListing) : urlMatch a b = urlMatch b a := by
  unfold urlMatch
  by_cases ha : a.url = "" <;> by_cases hb : b.url = "" <;>
    simp [ha, hb, urls_same_property_comm]

theorem imagesMatch_comm (a b : NormalizedListing) :
    imagesMatch a b = imagesMatch b a := by
  unfold imagesMatch
  by_cases ha : pyTruthy a.images_hash <;> by_cases hb : pyTruthy b.images_hash <;>
    simp [ha, hb, eq_comm]

theorem addressSim_comm (a b : NormalizedListing) :
    addressSim a b = addressSim b a := by
  unfold addressSim
  by_cases ha : a.raw_location_text = "" <;> by_cases hb : b.raw_location_text = "" <;>
    simp [ha, hb, token_sort_ratio_comm]

/-- Claim C6: the dedupe score is symmetric — for every pair of
NormalizedListings `a` and `b`, `compute_dedupe_score(a, b).combined` equals
`compute_dedupe_score(b, a).combined` (src/dedupe/engine.py lines 38–103). -/
theorem compute_dedupe_score_comm (a b : NormalizedListing) :
    (compute_dedupe_score a b).combined = (compute_dedupe_score b a).combined := by
  simp only [compute_dedupe_score]
  rw [titleSim_comm a b, priceSim_comm a b, areaSim_comm a b, urlMatch_comm a b,
    imagesMatch_comm a b, addressSim_comm a b]

/-- Claim C1: an exact image-hash match (both hashes present — i.e. passing the
code's presence test: non-`None` and non-empty — and equal) floors the combined
score at 0.85, and a canonicalized-URL match (both URLs non-empty and judged
the same property) floors it at 0.90, regardless of every other signal
(src/dedupe/engine.py lines 97–101). -/
theorem dedupe_score_floors (a b : NormalizedListing) :
    (∀ h, a.images_hash = some h → b.images_hash = some h → h ≠ "" →
      85 / 100 ≤ (compute_dedupe_score a b).combined)
    ∧ (a.url ≠ "" → b.url ≠ "" → urls_same_property a.url b.url = true →
      90 / 100 ≤ (compute_dedupe_score a b).combined) := by
  constructor
  · intro h hha hhb hne
    have him : imagesMatch a b = true := by
      unfold imagesMatch
      rw [hha, hhb]
      simp [pyTruthy, hne]
    rcases hum : urlMatch a b with _ | _
    · simp only [compute_dedupe_score, him, hum]
      simp only [if_true, if_false, Bool.false_eq_true, ite_false, ite_true]
      exact le_max_right _ _
    · simp only [compute_dedupe_score, him, hum]
      simp only [if_true, ite_true]
      exact le_trans (le_max_right _ _) (le_max_left _ _)
  · intro hua hub husp
    have hum : urlMatch a b = true := by
      unfold urlMatch
      simp [hua, hub, husp]
    simp only [compute_dedupe_score, hum]
    simp only [ite_true]
    exact le_max_right _ _

/-- Witness for C1 at a concrete pair: two listings from different sources
sharing the image hash "h" and the URL "https://x.com/p". -/
theorem dedupe_score_floors_witness :
    85 / 100 ≤ (compute_dedupe_score
      { source := "A", url := "https://x.com/p", images_hash := some "h" }
      { source := "B", url := "https://x.com/p", images_hash := some "h" }).combined
    ∧ 90 / 100 ≤ (compute_dedupe_score
      { source := "A", url := "https://x.com/p", images_hash := some "h" }
      { source := "B", url := "https://x.com/p", images_hash := some "h" }).combined :=
  ⟨(dedupe_score_floors _ _).1 "h" rfl rfl (by decide),
   (dedupe_score_floors _ _).2 (by decide) (by decide) (by decide)⟩

/-! ## `find_duplicate` (src/dedupe/engine.py lines 106–138) -/

/-- The quick-reject test of src/dedupe/engine.py lines 123–128: both
neighborhood matches truthy and different. -/
def neighborhoodDisagree (l c : NormalizedListing) : Bool :=
  pyTruthy l.neighborhood_match && pyTruthy c.neighborhood_match &&
    decide (l.neighborhood_match ≠ c.neighborhood_match)
/-- How the loop body of `find_duplicate` updates the running best when a
candidate's score meets the threshold (src/dedupe/engine.py lines 132–134):
replace only on a strictly greater combined score. -/
def considerCandidate (best : Option (NormalizedListing × DedupeScore))
    (c : NormalizedListing) (s : DedupeScore) :
    Option (NormalizedListing × DedupeScore) :=
  match best with
  | none => some (c, s)
  | some (c₀, s₀) =>
    if s₀.combined < s.combined then some (c, s) else some (c₀, s₀)

theorem considerCandidate_none (c : NormalizedListing) (s : DedupeScore) :
    considerCandidate none c s = some (c, s) := rfl

theorem considerCandidate_some (c₀ : NormalizedListing) (s₀ : DedupeScore)
    (c : NormalizedListing) (s : DedupeScore) :
    considerCandidate (some (c₀, s₀)) c s =
      if s₀.combined < s.combined then some (c, s) else some (c₀, s₀) := rfl

/-- The loop of `find_duplicate` (src/dedupe/engine.py lines 117–134),
carrying the Python locals `best_match_idx`/`best_score` as the best
candidate seen so far together with its score. -/
def findDuplicateAux (l : NormalizedListing) :
    Option (NormalizedListing × DedupeScore) → List NormalizedListing →
    Option (NormalizedListing × DedupeScore)
  | best, [] => best
  | best, c :: rest =>
    if c.source = l.source then findDuplicateAux l best rest
    else if neighborhoodDisagree l c then findDuplicateAux l best rest
    else
      let s := compute_dedupe_score l c
      if DEDUPE_COMBINED_THRESHOLD ≤ s.combined then
        findDuplicateAux l (considerCandidate best c s) rest
      else findDuplicateAux l best rest

/-- Embedding of `find_duplicate` (src/dedupe/engine.py lines 106–138):
returns `(matched_candidate.source_id, score)` for the best qualifying
candidate, or nothing. -/
def find_duplicate (l : NormalizedListing) (existing : List NormalizedListing) :
    Option (Option String × DedupeScore) :=
  match findDuplicateAux l none existing with
  | some (c, s) => some (c.source_id, s)
  | none => none

/-- Written from the spec's words (§4.4): a candidate is considered when it
comes from a different source and its matched neighborhood does not disagree
with the listing's when both are known (known = passes the code's truthiness
test). -/
def eligible_spec (l c : NormalizedListing) : Bool :=
  decide (c.source ≠ l.source) &&
    !(pyTruthy l.neighborhood_match && pyTruthy c.neighborhood_match &&
      decide (l.neighborhood_match ≠ c.neighborhood_match))

theorem eligible_spec_eq (l c : NormalizedListing) :
    eligible_spec l c =
      (decide (c.source ≠ l.source) && ! neighborhoodDisagree l c) := rfl

/-- Written from the spec's words (§4.4): the considered candidates together
with their scores, restricted to those meeting the combined threshold. -/
def qualified_spec (l : NormalizedListing) (cs : List NormalizedListing) :
    List (NormalizedListing × DedupeScore) :=
  ((cs.filter (fun c => eligible_spec l c)).map
      (fun c => (c, compute_dedupe_score l c))).filter
    (fun p => decide (DEDUPE_COMBINED_THRESHOLD ≤ p.2.combined))

/-- The highest combined score in a scored candidate list. -/
def maxCombined : List (NormalizedListing × DedupeScore) → ℚ
  | [] => 0
  | [p] => p.2.combined
  | p :: q :: rest => max p.2.combined (maxCombined (q :: rest))

/-- Written from the spec's words (§4.4): among the qualifying candidates,
return the first-encountered one achieving the highest combined score. -/
def find_duplicate_spec (l : NormalizedListing) (cs : List NormalizedListing) :
    Option (Option String × DedupeScore) :=
  let qual := qualified_spec l cs
  match qual.find? (fun p => decide (p.2.combined = maxCombined qual)) with
  | some p => some (p.1.source_id, p.2)
  | none => none

/-- Pick the better of a fixed head and an optional later winner: the later
one only on a strictly greater combined score. -/
def betterOf (p : NormalizedListing × DedupeScore) :
    Option (NormalizedListing × DedupeScore) →
    Option (NormalizedListing × DedupeScore)
  | none => some p
  | some q => if p.2.combined < q.2.combined then some q else some p

/-- First-encountered maximum of a scored list. -/
def firstMax : List (NormalizedListing × DedupeScore) →
    Option (NormalizedListing × DedupeScore)
  | [] => none
  | p :: ps => betterOf p (firstMax ps)

/-- How an already-accumulated best candidate combines with the best of the
remaining scan. -/
def mergeBest :
    Option (NormalizedListing × DedupeScore) →
    Option (NormalizedListing × DedupeScore) →
    Option (NormalizedListing × DedupeScore)
  | none, r => r
  | some b, none => some b
  | some b, some q => if b.2.combined < q.2.combined then some q else some b

theorem qualified_spec_nil (l : NormalizedListing) : qualified_spec l [] = [] := rfl

theorem qualified_spec_cons (l c : NormalizedListing) (cs : List NormalizedListing) :
    qualified_spec l (c :: cs) =
      if eligible_spec l c = true
          ∧ DEDUPE_COMBINED_THRESHOLD ≤ (compute_dedupe_score l c).combined then
        (c, compute_dedupe_score l c) :: qualified_spec l cs
      else qualified_spec l cs := by
  unfold qualified_spec
  by_cases he : eligible_spec l c = true
  · by_cases hq : DEDUPE_COMBINED_THRESHOLD ≤ (compute_dedupe_score l c).combined
    · simp [List.filter_cons, he, hq]
    · simp [List.filter_cons, he, hq]
  · simp [List.filter_cons, he]

theorem mergeBest_betterOf
    (best : Option (NormalizedListing × DedupeScore))
    (p : NormalizedListing × DedupeScore)
    (r : Option (NormalizedListing × DedupeScore)) :
    mergeBest (considerCandidate best p.1 p.2) r = mergeBest best (betterOf p r) := by
  cases best with
  | none =>
    rw [considerCandidate_none]
    cases r with
    | none => rfl
    | some q =>
      by_cases hlt : p.2.combined < q.2.combined <;>
        simp [betterOf, mergeBest, hlt]
  | some b =>
    obtain ⟨c₀, s₀⟩ := b
    rw [considerCandidate_some]
    cases r with
    | none =>
      by_cases hbs : s₀.combined < p.2.combined <;> simp [hbs, mergeBest, betterOf]
    | some q =>
      simp only [betterOf]
      by_cases hbs : s₀.combined < p.2.combined
      · rw [if_pos hbs]
        by_cases hlt : p.2.combined < q.2.combined
        · have htr : s₀.combined < q.2.combined := lt_trans hbs hlt
          simp [mergeBest, hlt, htr]
        · simp [mergeBest, hlt, hbs]
      · rw [if_neg hbs]
        by_cases hlt : p.2.combined < q.2.combined
        · simp [mergeBest, hlt]
        · have hno : ¬ s₀.combined < q.2.combined := fun hcon =>
            hbs (lt_of_lt_of_le hcon (le_of_not_lt hlt))
          simp [mergeBest, hlt, hbs, hno]

theorem findDuplicateAux_eq_merge (l : NormalizedListing) :
    ∀ (cs : List NormalizedListing) (best : Option (NormalizedListing × DedupeScore)),
      findDuplicateAux l best cs = mergeBest best (firstMax (qualified_spec l cs)) := by
  intro cs
  induction cs with
  | nil =>
    intro best
    cases best <;> rfl
  | cons c rest ih =>
    intro best
    by_cases hsrc : c.source = l.source
    · have helig : eligible_spec l c = false := by
        rw [eligible_spec_eq]
        simp [hsrc]
      rw [qualified_spec_cons, if_neg (by simp [helig])]
      simp only [findDuplicateAux, if_pos hsrc]
      exact ih best
    · by_cases hdis : neighborhoodDisagree l c = true
      · have helig : eligible_spec l c = false := by
          rw [eligible_spec_eq, hdis]
          simp
        rw [qualified_spec_cons, if_neg (by simp [helig])]
        simp only [findDuplicateAux, if_neg hsrc, if_pos hdis]
        exact ih best
      · have hdisf : neighborhoodDisagree l c = false := by
          simpa using hdis
        have helig : eligible_spec l c = true := by
          rw [eligible_spec_eq, hdisf]
          simp [hsrc]
        by_cases hq : DEDUPE_COMBINED_THRESHOLD ≤ (compute_dedupe_score l c).combined
        · rw [qualified_spec_cons, if_pos ⟨helig, hq⟩]
          simp only [findDuplicateAux, if_neg hsrc, hdisf, Bool.false_eq_true,
            if_false, if_pos hq]
          rw [ih (considerCandidate best c (compute_dedupe_score l c))]
          simp only [firstMax]
          exact mergeBest_betterOf best (c, compute_dedupe_score l c) _
        · rw [qualified_spec_cons, if_neg (fun hcon => hq hcon.2)]
          simp only [findDuplicateAux, if_neg hsrc, hdisf, Bool.false_eq_true,
            if_false, if_neg hq]
          exact ih best

theorem firstMax_eq_none (ps : List (NormalizedListing × DedupeScore)) :
    firstMax ps = none ↔ ps = [] := by
  cases ps with
  | nil => simp [firstMax]
  | cons p rest =>
    simp only [firstMax]
    cases firstMax rest with
    | none => simp [betterOf]
    | some q =>
      simp only [betterOf]
      by_cases h : p.2.combined < q.2.combined <;> simp [h]

theorem firstMax_maxCombined (ps : List (NormalizedListing × DedupeScore)) :
    ∀ q, firstMax ps = some q → q.2.combined = maxCombined ps := by
  induction ps with
  | nil => intro q h; simp [firstMax] at h
  | cons p rest ih =>
    intro q h
    simp only [firstMax] at h
    cases hfm : firstMax rest with
    | none =>
      rw [hfm] at h
      simp only [betterOf] at h
      obtain rfl : rest = [] := (firstMax_eq_none rest).mp hfm
      cases h
      rfl
    | some r =>
      rw [hfm] at h
      simp only [betterOf] at h
      obtain ⟨rr, rest2, rfl⟩ : ∃ rr rest2, rest = rr :: rest2 := by
        cases rest with
        | nil => simp [firstMax] at hfm
        | cons x xs => exact ⟨x, xs, rfl⟩
      have hr : r.2.combined = maxCombined (rr :: rest2) := ih r hfm
      by_cases hlt : p.2.combined < r.2.combined
      · rw [if_pos hlt] at h
        cases h
        simp only [maxCombined]
        rw [← hr]
        exact (max_eq_right (le_of_lt hlt)).symm
      · rw [if_neg hlt] at h
        cases h
        simp only [maxCombined]
        rw [← hr]
        exact (max_eq_left (le_of_not_lt hlt)).symm

theorem firstMax_eq_find? (ps : List (NormalizedListing × DedupeScore)) :
    firstMax ps = ps.find? (fun p => decide (p.2.combined = maxCombined ps)) := by
  induction ps with
  | nil => rfl
  | cons p rest ih =>
    cases hrest : rest with
    | nil => simp [firstMax, betterOf, maxCombined, List.find?]
    | cons r rest2 =>
      rw [← hrest]
      simp only [firstMax]
      cases hfm : firstMax rest with
      | none =>
        rw [(firstMax_eq_none rest).mp hfm] at hrest
        cases hrest
      | some q =>
        have hq : q.2.combined = maxCombined rest := firstMax_maxCombined rest q hfm
        simp only [betterOf]
        by_cases hlt : p.2.combined < q.2.combined
        · rw [if_pos hlt]
          have hmax : maxCombined (p :: rest) = maxCombined rest := by
            rw [hrest]
            simp only [maxCombined, ← hrest]
            exact max_eq_right (le_of_lt (hq ▸ hlt))
          have hne : decide (p.2.combined = maxCombined rest) = false := by
            simp only [decide_eq_false_iff_not]
            rw [← hq]
            exact ne_of_lt hlt
          simp only [List.find?, hmax, hne]
          rw [← ih, hfm]
        · rw [if_neg hlt]
          have hmax : maxCombined (p :: rest) = p.2.combined := by
            rw [hrest]
            simp only [maxCombined, ← hrest]
            exact max_eq_left (hq ▸ le_of_not_lt hlt)
          have hp : decide (p.2.combined = maxCombined (p :: rest)) = true := by
            simp [hmax]
          simp only [List.find?, hp]

/-- Claim C2: `find_duplicate` behaves exactly as specified — it considers
only candidates from a different source, skips candidates whose matched
neighborhood disagrees with the listing's when both are known, and returns
the highest-scoring remaining candidate whose combined score meets the
configured threshold (or no match when none does), resolving exact ties in
favor of the first-encountered candidate.  `find_duplicate_spec` is that
specification transcribed from §4.4 of the spec; the theorem states that the
code's scan (src/dedupe/engine.py lines 106–138) agrees with it on every
input. -/
theorem find_duplicate_eq_spec (l : NormalizedListing)
    (cs : List NormalizedListing) :
    find_duplicate l cs = find_duplicate_spec l cs := by
  unfold find_duplicate find_duplicate_spec
  rw [findDuplicateAux_eq_merge l cs none]
  simp only [mergeBest]
  rw [firstMax_eq_find?]
  cases List.find? (fun p => decide (p.2.combined = maxCombined (qualified_spec l cs)))
      (qualified_spec l cs) with
  | none => rfl
  | some p => rfl

theorem firstMax_mem (ps : List (NormalizedListing × DedupeScore)) :
    ∀ q, firstMax ps = some q → q ∈ ps := by
  induction ps with
  | nil => intro q h; simp [firstMax] at h
  | cons p rest ih =>
    intro q h
    simp only [firstMax] at h
    cases hfm : firstMax rest with
    | none =>
      rw [hfm] at h
      simp only [betterOf] at h
      cases h
      exact List.mem_cons_self _ _
    | some r =>
      rw [hfm] at h
      simp only [betterOf] at h
      by_cases hlt : p.2.combined < r.2.combined
      · rw [if_pos hlt] at h
        obtain rfl : r = q := Option.some.inj h
        exact List.mem_cons_of_mem _ (ih _ hfm)
      · rw [if_neg hlt] at h
        cases h
        exact List.mem_cons_self _ _

/-- Claim C10: whenever `find_duplicate` returns a match, the first component
of the result is the `source_id` field of the matched candidate — a
NormalizedListing, which carries no `dedupe_id` field — despite the
docstring's description of the return value as a dedupe_id
(src/dedupe/engine.py lines 112 and 137). -/
theorem find_duplicate_returns_source_id (l : NormalizedListing)
    (cs : List NormalizedListing) (sid : Option String) (s : DedupeScore)
    (h : find_duplicate l cs = some (sid, s)) :
    ∃ c, c ∈ cs ∧ c.source ≠ l.source ∧ sid = c.source_id
      ∧ s = compute_dedupe_score l c := by
  unfold find_duplicate at h
  rw [findDuplicateAux_eq_merge l cs none] at h
  simp only [mergeBest] at h
  cases hfm : firstMax (qualified_spec l cs) with
  | none => rw [hfm] at h; cases h
  | some q =>
    rw [hfm] at h
    obtain ⟨c, ds⟩ := q
    have hinj : c.source_id = sid ∧ ds = s := by
      have := h
      simp only [Option.some.injEq, Prod.mk.injEq] at this
      exact this
    have hqmem : (c, ds) ∈ qualified_spec l cs := firstMax_mem _ _ hfm
    unfold qualified_spec at hqmem
    rw [List.mem_filter] at hqmem
    obtain ⟨hmem, _⟩ := hqmem
    rw [List.mem_map] at hmem
    obtain ⟨cc, hcc, heq⟩ := hmem
    rw [List.mem_filter] at hcc
    obtain ⟨hcs, helig⟩ := hcc
    have hc1 : cc = c := congrArg Prod.fst heq
    have hc2 : compute_dedupe_score l cc = ds := congrArg Prod.snd heq
    subst hc1
    refine ⟨cc, hcs, ?_, hinj.1.symm, by rw [← hinj.2, ← hc2]⟩
    rw [eligible_spec_eq] at helig
    simp only [Bool.and_eq_true, decide_eq_true_eq] at helig
    exact helig.1

/-- Concrete listing for the C10 witness. -/
def sampleListingA : NormalizedListing := { source := "A", url := "https://x.com/p" }

/-- Concrete cross-source candidate for the C10 witness: the shared URL drives
the score to 0.9, above the 0.7 threshold. -/
def sampleCandB : NormalizedListing :=
  { source := "B", source_id := some "b1", url := "https://x.com/p" }

/-- The score `compute_dedupe_score sampleListingA sampleCandB` works out to. -/
def sampleScoreAB : DedupeScore :=
  { title_sim := 0, price_sim := 1 / 2, area_sim := 3 / 10, url_match := true,
    images_match := false, address_sim := 0, combined := 9 / 10 }

/-- Witness for C10 at the concrete pair. -/
theorem find_duplicate_returns_source_id_witness :
    ∃ c, c ∈ [sampleCandB]
      ∧ c.source ≠ sampleListingA.source
      ∧ some "b1" = c.source_id
      ∧ sampleScoreAB = compute_dedupe_score sampleListingA c :=
  find_duplicate_returns_source_id sampleListingA [sampleCandB] (some "b1")
    sampleScoreAB (by with_unfolding_all decide)
/-! ## Dedupe-id resolution in the pipeline (src/pipeline.py lines 119–149) -/

/-- pipeline.py lines 90–112: the NormalizedListing rebuilt field-by-field
from a stored ACTIVE row. -/
def toNormalized (sl : StoredListing) : NormalizedListing :=
  { source := sl.source, source_id := sl.source_id, url := sl.url,
    title := sl.title, raw_location_text := sl.raw_location_text,
    neighborhood_match := sl.neighborhood_match,
    neighborhood_confidence := sl.neighborhood_confidence,
    price_total_eur := sl.price_total_eur, price_quality := sl.price_quality,
    price_includes_service_costs := sl.price_includes_service_costs,
    gwl_included := sl.gwl_included, area_m2 := sl.area_m2,
    bedrooms := sl.bedrooms, property_type := sl.property_type,
    available_from := sl.available_from,
    description_snippet := sl.description_snippet, images_hash := sl.images_hash,
    ambiguous_neighborhood := sl.ambiguous_neighborhood }

/-- pipeline.py lines 113–117: lookup in the `(source, source_id) → dedupe_id`
dict comprehension over ACTIVE rows with truthy `source_id`; on duplicate keys
a later row overwrites an earlier one, as in a Python dict. -/
def existingDedupeMap (existing : List StoredListing) (src : String)
    (sid : Option String) : Option String :=
  (((existing.filter (fun sl => pyTruthy sl.source_id)).reverse).find?
    (fun sl => decide (sl.source = src ∧ sl.source_id = sid))).map
    (fun sl => sl.dedupe_id)

/-- The cross-source scan of pipeline.py lines 133–147, carrying the Python
locals `best_dedupe_id` and `best_score` (initialised to `None` and `0.0`). -/
def crossSourceAux (listing : NormalizedListing) :
    Option String × ℚ → List StoredListing → Option String × ℚ
  | acc, [] => acc
  | acc, sl :: rest =>
    if sl.source = listing.source then crossSourceAux listing acc rest
    else
      let s := compute_dedupe_score listing (toNormalized sl)
      if DEDUPE_COMBINED_THRESHOLD ≤ s.combined ∧ acc.2 < s.combined then
        crossSourceAux listing (some sl.dedupe_id, s.combined) rest
      else crossSourceAux listing acc rest

/-- `dedupe_id = best_dedupe_id or generate_dedupe_id()` (pipeline.py
line 149): Python `or` falls through on the falsy values `None` and `""`. -/
def pyOrFresh : Option String → String → String
  | none, fresh => fresh
  | some d, fresh => if d = "" then fresh else d

/-- pipeline.py lines 124–149: resolve the dedupe_id for one kept record
against the ACTIVE snapshot; `fresh` stands for the value
`generate_dedupe_id()` would mint (a fresh UUID, external randomness). -/
def resolveDedupeId (listing : NormalizedListing) (existing : List StoredListing)
    (fresh : String) : String :=
  match existingDedupeMap existing listing.source listing.source_id with
  | some d => d
  | none => pyOrFresh (crossSourceAux listing (none, 0) existing).1 fresh

theorem crossSourceAux_spec (listing : NormalizedListing) :
    ∀ (ls : List StoredListing) (acc : Option String × ℚ),
      (crossSourceAux listing acc ls = acc
        ∨ ∃ sl, sl ∈ ls ∧ sl.source ≠ listing.source
            ∧ (crossSourceAux listing acc ls).1 = some sl.dedupe_id
            ∧ (crossSourceAux listing acc ls).2
                = (compute_dedupe_score listing (toNormalized sl)).combined
            ∧ DEDUPE_COMBINED_THRESHOLD ≤ (crossSourceAux listing acc ls).2)
      ∧ (∀ sl, sl ∈ ls → sl.source ≠ listing.source →
          DEDUPE_COMBINED_THRESHOLD
              ≤ (compute_dedupe_score listing (toNormalized sl)).combined →
          (compute_dedupe_score listing (toNormalized sl)).combined
            ≤ (crossSourceAux listing acc ls).2)
      ∧ acc.2 ≤ (crossSourceAux listing acc ls).2 := by
  intro ls
  induction ls with
  | nil =>
    intro acc
    refine ⟨Or.inl rfl, ?_, le_rfl⟩
    intro sl hmem
    simp at hmem
  | cons sl rest ih =>
    intro acc
    by_cases hsrc : sl.source = listing.source
    · have hred : crossSourceAux listing acc (sl :: rest) =
          crossSourceAux listing acc rest := by
        simp only [crossSourceAux, if_pos hsrc]
      rw [hred]
      obtain ⟨h1, h2, h3⟩ := ih acc
      refine ⟨?_, ?_, h3⟩
      · rcases h1 with h1 | ⟨sl2, hmem, hrest⟩
        · exact Or.inl h1
        · exact Or.inr ⟨sl2, List.mem_cons_of_mem _ hmem, hrest⟩
      · intro sl2 hmem hne hθ
        rcases List.mem_cons.mp hmem with rfl | hmem2
        · exact absurd hsrc hne
        · exact h2 sl2 hmem2 hne hθ
    · by_cases hcond : DEDUPE_COMBINED_THRESHOLD
          ≤ (compute_dedupe_score listing (toNormalized sl)).combined
          ∧ acc.2 < (compute_dedupe_score listing (toNormalized sl)).combined
      · have hred : crossSourceAux listing acc (sl :: rest) =
            crossSourceAux listing
              (some sl.dedupe_id,
                (compute_dedupe_score listing (toNormalized sl)).combined) rest := by
          simp only [crossSourceAux, if_neg hsrc, if_pos hcond]
        rw [hred]
        obtain ⟨h1, h2, h3⟩ := ih
          (some sl.dedupe_id, (compute_dedupe_score listing (toNormalized sl)).combined)
        refine ⟨?_, ?_, ?_⟩
        · rcases h1 with h1 | ⟨sl2, hmem, hne2, ha, hb, hc⟩
          · refine Or.inr ⟨sl, List.mem_cons_self _ _, hsrc, ?_, ?_, ?_⟩
            · rw [h1]
            · rw [h1]
            · rw [h1]
              exact hcond.1
          · exact Or.inr ⟨sl2, List.mem_cons_of_mem _ hmem, hne2, ha, hb, hc⟩
        · intro sl2 hmem hne hθ
          rcases List.mem_cons.mp hmem with rfl | hmem2
          · exact h3
          · exact h2 sl2 hmem2 hne hθ
        · exact le_trans (le_of_lt hcond.2) h3
      · have hred : crossSourceAux listing acc (sl :: rest) =
            crossSourceAux listing acc rest := by
          simp only [crossSourceAux, if_neg hsrc, if_neg hcond]
        rw [hred]
        obtain ⟨h1, h2, h3⟩ := ih acc
        refine ⟨?_, ?_, h3⟩
        · rcases h1 with h1 | ⟨sl2, hmem, hrest⟩
          · exact Or.inl h1
          · exact Or.inr ⟨sl2, List.mem_cons_of_mem _ hmem, hrest⟩
        · intro sl2 hmem hne hθ
          rcases List.mem_cons.mp hmem with rfl | hmem2
          · have hnotlt : ¬ acc.2
                < (compute_dedupe_score listing (toNormalized sl2)).combined :=
              fun hcon => hcond ⟨hθ, hcon⟩
            exact le_trans (le_of_not_lt hnotlt) h3
          · exact h2 sl2 hmem2 hne hθ

theorem threshold_pos : (0 : ℚ) < DEDUPE_COMBINED_THRESHOLD := by
  unfold DEDUPE_COMBINED_THRESHOLD
  norm_num

/-- Claim C3: in run_pipeline, a kept record whose `(source, source_id)` has
no existing ACTIVE row is assigned the dedupe_id of a highest-scoring ACTIVE
listing from a different source whose combined score meets the configured
threshold; when no such listing exists it is assigned the freshly minted
identifier (src/pipeline.py lines 124–149).  The hypothesis that all stored
dedupe_ids are non-empty reflects the pipeline-maintained invariant that every
stored row's dedupe_id is either a UUID or adopted from one. -/
theorem resolveDedupeId_spec (listing : NormalizedListing)
    (existing : List StoredListing) (fresh : String)
    (hnew : existingDedupeMap existing listing.source listing.source_id = none)
    (hids : ∀ sl, sl ∈ existing → sl.dedupe_id ≠ "") :
    (∃ sl, sl ∈ existing ∧ sl.source ≠ listing.source
        ∧ DEDUPE_COMBINED_THRESHOLD
            ≤ (compute_dedupe_score listing (toNormalized sl)).combined
        ∧ (∀ sl2, sl2 ∈ existing → sl2.source ≠ listing.source →
            (compute_dedupe_score listing (toNormalized sl2)).combined
              ≤ (compute_dedupe_score listing (toNormalized sl)).combined)
        ∧ resolveDedupeId listing existing fresh = sl.dedupe_id)
    ∨ ((∀ sl, sl ∈ existing → sl.source ≠ listing.source →
          (compute_dedupe_score listing (toNormalized sl)).combined
            < DEDUPE_COMBINED_THRESHOLD)
        ∧ resolveDedupeId listing existing fresh = fresh) := by
  have hres : resolveDedupeId listing existing fresh
      = pyOrFresh (crossSourceAux listing (none, 0) existing).1 fresh := by
    unfold resolveDedupeId
    rw [hnew]
  obtain ⟨h1, h2, _⟩ := crossSourceAux_spec listing existing (none, 0)
  rcases h1 with h1 | ⟨sl, hmem, hne, ha, hb, hc⟩
  · refine Or.inr ⟨?_, ?_⟩
    · intro sl hmem hne2
      by_contra hcon
      push_neg at hcon
      have hle := h2 sl hmem hne2 hcon
      rw [h1] at hle
      exact absurd (lt_of_lt_of_le threshold_pos (le_trans hcon hle)) (lt_irrefl 0)
    · rw [hres, h1]
      rfl
  · refine Or.inl ⟨sl, hmem, hne, hb ▸ hc, ?_, ?_⟩
    · intro sl2 hmem2 hne2
      by_cases hθ : DEDUPE_COMBINED_THRESHOLD
          ≤ (compute_dedupe_score listing (toNormalized sl2)).combined
      · have := h2 sl2 hmem2 hne2 hθ
        rw [hb] at this
        exact this
      · exact le_trans (le_of_lt (lt_of_not_le hθ)) (hb ▸ hc)
    · rw [hres, ha]
      show (if sl.dedupe_id = "" then fresh else sl.dedupe_id) = sl.dedupe_id
      rw [if_neg (hids sl hmem)]

/-- Concrete kept record for the C3 witness. -/
def c3Listing : NormalizedListing := { source := "A", url := "https://x.com/p" }

/-- Concrete ACTIVE stored row for the C3 witness: different source, same
URL (score 0.9 ≥ 0.7), dedupe_id "d1". -/
def c3Stored : StoredListing :=
  { source := "B", source_id := some "b1", url := "https://x.com/p",
    dedupe_id := "d1" }

/-- Witness for C3 at a concrete pipeline state. -/
theorem resolveDedupeId_spec_witness :
    (∃ sl, sl ∈ [c3Stored] ∧ sl.source ≠ c3Listing.source
        ∧ DEDUPE_COMBINED_THRESHOLD
            ≤ (compute_dedupe_score c3Listing (toNormalized sl)).combined
        ∧ (∀ sl2, sl2 ∈ [c3Stored] → sl2.source ≠ c3Listing.source →
            (compute_dedupe_score c3Listing (toNormalized sl2)).combined
              ≤ (compute_dedupe_score c3Listing (toNormalized sl)).combined)
        ∧ resolveDedupeId c3Listing [c3Stored] "fresh-id" = sl.dedupe_id)
    ∨ ((∀ sl, sl ∈ [c3Stored] → sl.source ≠ c3Listing.source →
          (compute_dedupe_score c3Listing (toNormalized sl)).combined
            < DEDUPE_COMBINED_THRESHOLD)
        ∧ resolveDedupeId c3Listing [c3Stored] "fresh-id" = "fresh-id") :=
  resolveDedupeId_spec c3Listing [c3Stored] "fresh-id" (by decide) (by decide)

/-! ## The filter step of the pipeline (src/pipeline.py lines 61–77) -/

/-- Whether one normalized record survives the filter step of
src/pipeline.py lines 64–77: it must have a neighborhood match (`is None`
test), and a known price must be below the ceiling; an unknown price is
kept. -/
def keepListing (l : NormalizedListing) : Bool :=
  if l.neighborhood_match = none then false
  else
    match l.price_total_eur with
    | some p => if MAX_PRICE_EUR ≤ p then false else true
    | none => true

/-- The `kept` list built by the filter loop (src/pipeline.py lines 62–77),
in input order. -/
def filterKept : List NormalizedListing → List NormalizedListing
  | [] => []
  | l :: rest =>
    if keepListing l then l :: filterKept rest else filterKept rest

/-- The `filtered_count` accumulated by the filter loop. -/
def filterDroppedCount : List NormalizedListing → Nat
  | [] => 0
  | l :: rest =>
    if keepListing l then filterDroppedCount rest else filterDroppedCount rest + 1

theorem keepListing_iff (l : NormalizedListing) :
    keepListing l = true ↔
      l.neighborhood_match ≠ none
        ∧ (match l.price_total_eur with
            | none => True
            | some p => p < MAX_PRICE_EUR) := by
  unfold keepListing
  cases hm : l.neighborhood_match with
  | none => simp [hm]
  | some nm =>
    cases hp : l.price_total_eur with
    | none => simp [hm, hp]
    | some p =>
      by_cases hc : MAX_PRICE_EUR ≤ p
      · simp [hm, hp, hc, not_lt.mpr hc]
      · simp [hm, hp, hc, lt_of_not_le hc]

/-- Claim C7: a record passes the pipeline's filter step exactly when it has a
neighborhood match and its price is either unknown or below the configured
ceiling — so a record with a neighborhood match and an unknown price is always
kept, one without a match or with a known price at/above the ceiling is
dropped (src/pipeline.py lines 61–77, src/config.py line 39). -/
theorem filterKept_mem_iff (ls : List NormalizedListing) (l : NormalizedListing) :
    l ∈ filterKept ls ↔
      l ∈ ls ∧ l.neighborhood_match ≠ none
        ∧ (match l.price_total_eur with
            | none => True
            | some p => p < MAX_PRICE_EUR) := by
  induction ls with
  | nil => simp [filterKept]
  | cons x rest ih =>
    by_cases hk : keepListing x = true
    · simp only [filterKept, hk, if_true, List.mem_cons]
      constructor
      · rintro (rfl | hmem)
        · exact ⟨Or.inl rfl, (keepListing_iff l).mp hk⟩
        · obtain ⟨ha, hb⟩ := ih.mp hmem
          exact ⟨Or.inr ha, hb⟩
      · rintro ⟨rfl | hmem, hb⟩
        · exact Or.inl rfl
        · exact Or.inr (ih.mpr ⟨hmem, hb⟩)
    · simp only [filterKept, hk, Bool.false_eq_true, if_false, List.mem_cons]
      rw [ih]
      constructor
      · rintro ⟨hmem, hb⟩
        exact ⟨Or.inr hmem, hb⟩
      · rintro ⟨rfl | hmem, hb⟩
        · exact absurd ((keepListing_iff l).mpr hb) hk
        · exact ⟨hmem, hb⟩

/-! ## `safe_collect` (src/collectors/base.py lines 85–93) -/

/-- Modelled from the spec: the RawListing record (§3; src/models.py is not
among the sources).  Fields reconstructed from §3 and the collectors' uses. -/
structure RawListing where
  source : String
  source_id : Option String := none
  url : String := ""
  title : String := ""
  raw_location_text : String := ""
  price_raw : Option ℚ := none
  service_costs_raw : Option ℚ := none
  price_includes_service_costs : Bool := false
  gwl_included : Bool := false
  area_m2 : Option ℚ := none
  bedrooms : Option ℕ := none
  property_type : Option String := none
  available_from : Option String := none
  description_snippet : String := ""
  image_urls : List String := []
  deriving DecidableEq, Repr

/-- The outcome of one invocation of a collector's `collect()`
(the abstract method of src/collectors/base.py line 81): either a normal
return, or a raised exception carrying its message together with the listings
the collector had accumulated before raising — a Python exception discards
that local list, so the caller never sees it. -/
inductive CollectOutcome where
  | ok (listings : List RawListing)
  | exc (gathered : List RawListing) (msg : String)
  deriving DecidableEq, Repr

/-- Embedding of `safe_collect` (src/collectors/base.py lines 85–93): return
`collect()`'s listings on success; on any exception, log and return the empty
list.  Totality of this function is the embedded form of "never raises". -/
def safe_collect : CollectOutcome → List RawListing
  | .ok listings => listings
  | .exc _ _ => []

/-- Sample raw listing for the C8 theorems. -/
def c8Raw : RawListing := { source := "Funda", title := "Mooi appartement" }

/-- Counterexample to C8 as stated: a `collect()` that had gathered one
listing and then raised.  `safe_collect` returns the empty list, not the
partial results gathered before the exception
(src/collectors/base.py lines 91–93 return `[]`). -/
theorem safe_collect_counterexample :
    safe_collect (CollectOutcome.exc [c8Raw] "network error") = []
      ∧ ([] : List RawListing) ≠ [c8Raw] := by
  exact ⟨rfl, by decide⟩

/-- Claim C8 (amended): `safe_collect` never raises — it is total — and when
the underlying `collect()` raises any exception the error is caught and
logged and the empty list is returned (the source contributes zero records),
rather than the partial results gathered before the exception or a
propagated failure (src/collectors/base.py lines 85–93). -/
theorem safe_collect_amended (o : CollectOutcome) :
    (∀ listings, o = CollectOutcome.ok listings → safe_collect o = listings)
      ∧ (∀ gathered msg, o = CollectOutcome.exc gathered msg →
          safe_collect o = []) := by
  constructor
  · rintro listings rfl
    rfl
  · rintro gathered msg rfl
    rfl

/-- Witness for the amended C8 at a concrete failing collector. -/
theorem safe_collect_amended_witness :
    safe_collect (CollectOutcome.exc [c8Raw] "network error") = [] :=
  (safe_collect_amended (CollectOutcome.exc [c8Raw] "network error")).2
    [c8Raw] "network error" rfl

/-! ## Change tracking (modelled from the spec)

src/storage/database.py — the implementation of `upsert_listing` and
`mark_missing` — is not among the sources (src/storage/backend.py only
dispatches to it), so the per-row state machine is modelled from §4.5 and §6
of the spec. -/

/-- StoredListing lifecycle status (§3). -/
inductive ListingStatus where
  | ACTIVE
  | REMOVED
  deriving DecidableEq, Repr

/-- ChangeRecord change_type (§3). -/
inductive ChangeType where
  | NEW
  | CHANGED
  | UNCHANGED
  | REACTIVATED
  | REMOVED
  deriving DecidableEq, Repr

/-- The lifecycle fields of one stored row that the removal / reactivation
rules read and write. -/
structure TrackedRow where
  status : ListingStatus
  missing_runs : Nat
  deriving DecidableEq, Repr

/-- Modelled from the spec: the effect of `mark_missing` (§4.5, §6;
src/storage/database.py is not among the sources) on one row not re-sighted
this run.  For an ACTIVE row `missing_runs` increments; at/above
`REMOVED_AFTER_MISSING_RUNS` the row transitions to REMOVED and is reported
(the returned Bool); below it the row stays ACTIVE unreported.  A row already
REMOVED is not a miss and is never reported again. -/
def missRun (r : TrackedRow) : TrackedRow × Bool :=
  if r.status = ListingStatus.ACTIVE then
    let m := r.missing_runs + 1
    if REMOVED_AFTER_MISSING_RUNS ≤ m then
      ({ status := ListingStatus.REMOVED, missing_runs := m }, true)
    else ({ status := ListingStatus.ACTIVE, missing_runs := m }, false)
  else (r, false)

/-- Modelled from the spec: the effect of `upsert` on a re-sighted row with no
field diff (§4.5): a REMOVED row becomes ACTIVE with change_type REACTIVATED;
an ACTIVE row is UNCHANGED; `missing_runs` resets to 0 either way. -/
def resightRun (r : TrackedRow) : TrackedRow × ChangeType :=
  if r.status = ListingStatus.REMOVED then
    ({ status := ListingStatus.ACTIVE, missing_runs := 0 }, ChangeType.REACTIVATED)
  else ({ status := ListingStatus.ACTIVE, missing_runs := 0 }, ChangeType.UNCHANGED)

/-- The REMOVED-report flags produced by `n` further consecutive missing
runs. -/
def missReports : TrackedRow → Nat → List Bool
  | _, 0 => []
  | r, n + 1 => (missRun r).2 :: missReports (missRun r).1 n

theorem missReports_removed :
    ∀ (n : Nat) (r : TrackedRow), r.status = ListingStatus.REMOVED →
      ∀ b, b ∈ missReports r n → b = false := by
  intro n
  induction n with
  | zero =>
    intro r hst b hb
    simp [missReports] at hb
  | succ n ih =>
    intro r hst b hb
    have hmr : missRun r = (r, false) := by
      unfold missRun
      rw [if_neg]
      rw [hst]
      intro hcon
      cases hcon
    simp only [missReports, hmr] at hb
    rcases List.mem_cons.mp hb with rfl | hb2
    · rfl
    · exact ih r hst b hb2

/-- Claim C4: an ACTIVE listing not re-sighted for exactly
`REMOVED_AFTER_MISSING_RUNS` (= 2) consecutive runs stays ACTIVE and
unreported on the earlier missing run, transitions to REMOVED and is reported
exactly once on the threshold run, is never reported again by later missing
runs, and a single subsequent re-sighting yields change_type REACTIVATED with
status reverting to ACTIVE (modelled from spec §4.5;
src/config.py line 109). -/
theorem removal_reactivation_lifecycle (r : TrackedRow)
    (hact : r.status = ListingStatus.ACTIVE) (hm : r.missing_runs = 0) :
    (missRun r).1.status = ListingStatus.ACTIVE
      ∧ (missRun r).2 = false
      ∧ (missRun (missRun r).1).1.status = ListingStatus.REMOVED
      ∧ (missRun (missRun r).1).2 = true
      ∧ (∀ n b, b ∈ missReports (missRun (missRun r).1).1 n → b = false)
      ∧ (resightRun (missRun (missRun r).1).1).2 = ChangeType.REACTIVATED
      ∧ (resightRun (missRun (missRun r).1).1).1.status = ListingStatus.ACTIVE := by
  obtain ⟨st, mr⟩ := r
  simp only at hact hm
  subst hact
  subst hm
  refine ⟨by decide, by decide, by decide, by decide, ?_, by decide, by decide⟩
  intro n b hb
  exact missReports_removed n _ (by decide) b hb

/-- Witness for C4 from a freshly re-sighted ACTIVE row. -/
theorem removal_reactivation_lifecycle_witness :
    (missRun ⟨ListingStatus.ACTIVE, 0⟩).1.status = ListingStatus.ACTIVE
      ∧ (missRun ⟨ListingStatus.ACTIVE, 0⟩).2 = false
      ∧ (missRun (missRun ⟨ListingStatus.ACTIVE, 0⟩).1).1.status
          = ListingStatus.REMOVED
      ∧ (missRun (missRun ⟨ListingStatus.ACTIVE, 0⟩).1).2 = true
      ∧ (∀ n b, b ∈ missReports (missRun (missRun ⟨ListingStatus.ACTIVE, 0⟩).1).1 n
          → b = false)
      ∧ (resightRun (missRun (missRun ⟨ListingStatus.ACTIVE, 0⟩).1).1).2
          = ChangeType.REACTIVATED
      ∧ (resightRun (missRun (missRun ⟨ListingStatus.ACTIVE, 0⟩).1).1).1.status
          = ListingStatus.ACTIVE :=
  removal_reactivation_lifecycle ⟨ListingStatus.ACTIVE, 0⟩ rfl rfl

/-! ## Neighborhood matcher (src/matcher/neighborhood.py) -/

/-- src/config.py lines 42–100: the registry, in source order. -/
def TARGET_NEIGHBORHOODS : List (String × List String) :=
  [("De Baarsjes",
      ["de baarsjes", "baarsjes", "amsterdam-west de baarsjes",
       "amsterdam west de baarsjes"]),
   ("Centrum", ["centrum", "amsterdam centrum", "amsterdam-centrum", "binnenstad"]),
   ("Houthavens", ["houthavens", "houthaven"]),
   ("Oud-West",
      ["oud-west", "oud west", "oudwest", "amsterdam oud-west",
       "amsterdam oud west"]),
   ("Oud-Zuid",
      ["oud-zuid", "oud zuid", "oudzuid", "amsterdam oud-zuid",
       "amsterdam oud zuid", "amsterdam-zuid oud-zuid"]),
   ("De Pijp", ["de pijp", "pijp", "depijp"]),
   ("Plantagebuurt", ["plantagebuurt", "plantage", "plantage buurt"]),
   ("Rivierenbuurt", ["rivierenbuurt", "rivieren buurt"]),
   ("Schinkelbuurt", ["schinkelbuurt", "schinkel buurt", "schinkel"]),
   ("Weesperzijde", ["weesperzijde"]),
   ("Westerpark", ["westerpark", "wester park"])]

/-- The punctuation character class of `_normalize_text`'s first regex:
comma, period, hyphen, slash, pipe and parentheses. -/
def isPunctCls (c : Char) : Bool :=
  c = ',' ∨ c = '.' ∨ c = '-' ∨ c = '/' ∨ c = '|' ∨ c = '(' ∨ c = ')'

/-- Embedding of `_normalize_text` (src/matcher/neighborhood.py lines 20–25):
lowercase, punctuation runs to a space, whitespace runs collapsed, stripped.
Replacing each punctuation character by a space and then collapsing
whitespace runs yields the same result as the two regex substitutions. -/
def normalize_text (s : String) : List Char :=
  stripWs (collapseWs ((pyLower s).toList.map (fun c => if isPunctCls c then ' ' else c)))

/-- A boundary character of the word-boundary pattern
`(?:^|\s|,)variant(?:\s|,|$)` (src/matcher/neighborhood.py line 64). -/
def isBoundaryChar (c : Char) : Bool := isWs c ∨ c = ','

/-- The variant matches at the head of `t` and is followed by a boundary
character or the end of the text. -/
def boundedHere (v t : List Char) : Bool :=
  match dropWord v t with
  | none => false
  | some [] => true
  | some (c :: _) => isBoundaryChar c

/-- Search for a bounded occurrence starting right after some boundary
character of `t`. -/
def boundedAfter (v : List Char) : List Char → Bool
  | [] => false
  | c :: rest => (isBoundaryChar c && boundedHere v rest) || boundedAfter v rest

/-- `re.search` of the word-boundary pattern: the variant occurs at the start
of the text or right after a boundary character, followed by a boundary
character or the end. -/
def boundedOccurs (v t : List Char) : Bool :=
  boundedHere v t || boundedAfter v t

/-- The best score one normalized variant reaches over the three fields
(src/matcher/neighborhood.py lines 66–74): the field weight, plus the +0.05
specificity bonus (capped at 1.0) when the variant is longer than 8
characters; empty fields are skipped. -/
def fieldsScore (nv : List Char) : List (ℚ × List Char) → ℚ
  | [] => 0
  | (w, ft) :: rest =>
    let s := if ft ≠ [] ∧ boundedOccurs nv ft = true then
        (if 8 < nv.length then min 1 (w + 5 / 100) else w)
      else 0
    max s (fieldsScore nv rest)

/-- The best score of one neighborhood over all its variants
(src/matcher/neighborhood.py lines 58–74). -/
def bestVariantScore (fields : List (ℚ × List Char)) : List String → ℚ
  | [] => 0
  | v :: vs => max (fieldsScore (normalize_text v) fields) (bestVariantScore fields vs)

/-- The `matches` dict of src/matcher/neighborhood.py lines 55–77 as an
association list in registry order: each neighborhood's best score, keeping
only strictly positive scores.  The field list carries the weights of
lines 49–53 in the dict's iteration order (location, title, description). -/
def neighborhoodMatches (title location_text description : String) :
    List (String × ℚ) :=
  let fields : List (ℚ × List Char) :=
    [(9 / 10, normalize_text location_text),
     (8 / 10, normalize_text title),
     (6 / 10, normalize_text description)]
  (TARGET_NEIGHBORHOODS.map (fun p => (p.1, bestVariantScore fields p.2))).filter
    (fun q => decide (0 < q.2))

/-- Stable insert for the descending sort: an element moves ahead only of
strictly smaller scores, so equal scores keep their registry order, matching
Python's stable `sorted(..., reverse=True)`. -/
def insertMatch (p : String × ℚ) : List (String × ℚ) → List (String × ℚ)
  | [] => [p]
  | q :: qs => if q.2 ≤ p.2 then p :: q :: qs else q :: insertMatch p qs

/-- Stable descending sort by score (src/matcher/neighborhood.py line 83). -/
def sortMatches : List (String × ℚ) → List (String × ℚ)
  | [] => []
  | p :: ps => insertMatch p (sortMatches ps)

/-- Result of a neighborhood match (src/matcher/neighborhood.py lines 11–17). -/
structure NeighborhoodResult where
  name : Option String
  confidence : ℚ
  ambiguous : Bool
  deriving DecidableEq, Repr

/-- Embedding of `match_neighborhood` (src/matcher/neighborhood.py
lines 28–105): score every neighborhood, return no-match when nothing scores
positively, otherwise sort descending, flag ambiguity when the top two are
within 0.15, and on an exact top-two score tie prefer the longer canonical
name of those two. -/
def match_neighborhood (title location_text description : String) :
    NeighborhoodResult :=
  match sortMatches (neighborhoodMatches title location_text description) with
  | [] => { name := none, confidence := 0, ambiguous := false }
  | (n0, c0) :: rest =>
    let ambiguous := match rest with
      | [] => false
      | (_, c1) :: _ => decide (c0 - c1 < 15 / 100)
    let best := match rest with
      | [] => n0
      | (n1, c1) :: _ => if c0 = c1 ∧ n0.length < n1.length then n1 else n0
    { name := some best, confidence := c0, ambiguous := ambiguous }

/-- Counterexample to C9 as stated: on location text "centrum pijp schinkel"
three neighborhoods tie at the exact best score 0.9, yet the returned name is
"Centrum", not the longest tied name "Schinkelbuurt" — the code compares only
the first two entries of the sorted list
(src/matcher/neighborhood.py lines 96–99). -/
theorem match_neighborhood_tiebreak_counterexample :
    neighborhoodMatches "" "centrum pijp schinkel" ""
        = [("Centrum", 9 / 10), ("De Pijp", 9 / 10), ("Schinkelbuurt", 9 / 10)]
      ∧ (match_neighborhood "" "centrum pijp schinkel" "").name = some "Centrum"
      ∧ "Centrum".length < "Schinkelbuurt".length :=
  ⟨by with_unfolding_all decide, by with_unfolding_all decide, by decide⟩

/-- Claim C9 (amended): on an exact score tie at the top, the returned
canonical name is the longer-named of only the first two entries of the
stable score-sorted match list (the first entry on equal lengths); tied
neighborhoods beyond the second entry are never consulted
(src/matcher/neighborhood.py lines 96–99). -/
theorem match_neighborhood_tiebreak (title loc desc : String)
    (n0 n1 : String) (c0 c1 : ℚ) (rest : List (String × ℚ))
    (hsort : sortMatches (neighborhoodMatches title loc desc)
      = (n0, c0) :: (n1, c1) :: rest)
    (htie : c0 = c1) :
    (match_neighborhood title loc desc).name
      = some (if n0.length < n1.length then n1 else n0) := by
  unfold match_neighborhood
  rw [hsort]
  by_cases hlen : n0.length < n1.length
  · simp [htie, hlen]
  · simp [htie, hlen]

/-- Witness for the amended C9: "pijp schinkel" ties De Pijp and
Schinkelbuurt at 0.9 and returns the longer name. -/
theorem match_neighborhood_tiebreak_witness :
    (match_neighborhood "" "pijp schinkel" "").name
      = some (if "De Pijp".length < "Schinkelbuurt".length
          then "Schinkelbuurt" else "De Pijp") :=
  match_neighborhood_tiebreak "" "pijp schinkel" "" "De Pijp" "Schinkelbuurt"
    (9 / 10) (9 / 10) [] (by with_unfolding_all decide) rfl

/-! ## Numeric price-string parsing (modelled from the spec)

src/normalizer/price.py — the Price Resolver, including `_parse_price_string`
— is not among the sources (only its callers are, e.g.
src/collectors/funda.py line 92), so the separator heuristics are modelled
from §4.1 and §8 of the spec.  A parsed decimal value is carried exactly as a
pair `(N, l)` denoting `N / 10 ^ l`; `partsVal` converts it to `ℚ`. -/

/-- Accumulate a decimal digit string; `none` on any non-digit. -/
def digitsValAux : Nat → List Char → Option Nat
  | acc, [] => some acc
  | acc, c :: rest =>
    if c.isDigit then digitsValAux (acc * 10 + (c.toNat - 48)) rest else none

/-- The value of a non-empty all-digit string. -/
def digitsVal : List Char → Option Nat
  | [] => none
  | cs => digitsValAux 0 cs

/-- Split on a separator character. -/
def splitOnChar (sep : Char) : List Char → List (List Char)
  | [] => [[]]
  | c :: rest =>
    if c = sep then [] :: splitOnChar sep rest
    else
      match splitOnChar sep rest with
      | [] => [[c]]
      | g :: gs => (c :: g) :: gs

/-- Modelled from the spec (§4.1): parse the groups of a string containing
exactly one kind of separator, as a `(digits, scale)` pair.  The separator is
a thousands separator exactly when every group after the first consists of
exactly three digits; otherwise the last separator is the decimal separator
(the earlier groups form the integer part). -/
def parseSingleSepParts (groups : List (List Char)) : Option (Nat × Nat) :=
  match groups with
  | [] => none
  | [g] => (digitsVal g).map (fun n => (n, 0))
  | g :: gs =>
    if gs.all (fun t => t.length = 3) then
      (digitsVal (g :: gs).flatten).map (fun n => (n, 0))
    else
      match (g :: gs).reverse with
      | [] => none
      | frac :: revInit =>
        (digitsVal (revInit.reverse.flatten ++ frac)).map
          (fun n => (n, frac.length))

/-- Modelled from the spec (§4.1): parse a string containing both separators —
the right-most separator is the decimal separator, the other one is removed
as a thousands separator. -/
def parseBothSepsParts (cs : List Char) (dec thou : Char) : Option (Nat × Nat) :=
  let cleaned := cs.filter (fun c => c ≠ thou)
  match (splitOnChar dec cleaned).reverse with
  | [] => none
  | [_] => none
  | frac :: revInit =>
    (digitsVal (revInit.reverse.flatten ++ frac)).map (fun n => (n, frac.length))

/-- The right-most of the two separator characters present in the string. -/
def lastSep (cs : List Char) : Option Char :=
  cs.reverse.find? (fun c => c = '.' ∨ c = ',')

/-- Modelled from the spec: the separator-resolution core of
`_parse_price_string` (§4.1; src/normalizer/price.py is not among the
sources): both separators → the right-most one is decimal; a lone `.` or lone
`,` is a thousands separator exactly when three digits follow it, else
decimal; no separator → plain digits. -/
def parseNumericParts (s : String) : Option (Nat × Nat) :=
  let cs := s.toList
  if cs.contains '.' ∧ cs.contains ',' then
    match lastSep cs with
    | some '.' => parseBothSepsParts cs '.' ','
    | some ',' => parseBothSepsParts cs ',' '.'
    | _ => none
  else if cs.contains '.' then parseSingleSepParts (splitOnChar '.' cs)
  else if cs.contains ',' then parseSingleSepParts (splitOnChar ',' cs)
  else (digitsVal cs).map (fun n => (n, 0))

/-- The rational value of a `(digits, scale)` pair. -/
def partsVal (p : Nat × Nat) : ℚ := (p.1 : ℚ) / 10 ^ p.2

/-- The parsed numeric value of a price string, as a rational. -/
def parseNumericString (s : String) : Option ℚ :=
  (parseNumericParts s).map partsVal

/-- The plausibility test `100 ≤ value ≤ 50000`, carried out exactly on the
`(digits, scale)` pair. -/
def rangeOk (p : Nat × Nat) : Bool :=
  decide (100 * 10 ^ p.2 ≤ p.1) && decide (p.1 ≤ 50000 * 10 ^ p.2)

/-- Modelled from the spec (§4.1, §8): `_parse_price_string` — the parsed
value, rejected as implausible (absence, not an error) when outside
[100, 50000]. -/
def _parse_price_string (s : String) : Option ℚ :=
  match parseNumericParts s with
  | none => none
  | some p => if rangeOk p then some (partsVal p) else none

theorem rangeOk_iff (p : Nat × Nat) :
    rangeOk p = true ↔ ((100 : ℚ) ≤ partsVal p ∧ partsVal p ≤ 50000) := by
  obtain ⟨N, l⟩ := p
  unfold rangeOk partsVal
  have hpow : (0 : ℚ) < 10 ^ l := by positivity
  simp only [Bool.and_eq_true, decide_eq_true_eq]
  rw [le_div_iff₀ hpow, div_le_iff₀ hpow]
  rw [show ((100 : ℚ) * 10 ^ l) = ((100 * 10 ^ l : ℕ) : ℚ) by push_cast; ring,
    show ((50000 : ℚ) * 10 ^ l) = ((50000 * 10 ^ l : ℕ) : ℚ) by push_cast; ring,
    Nat.cast_le, Nat.cast_le]

/-- Claim C5: the Dutch/English separator heuristics — "1.500", "1.500,00"
and "1,500.00" all parse to 1500; with both separators present the right-most
one is the decimal separator ("1.234,56" and "1,234.56" both parse to
1234.56); a lone separator not followed by exactly three digits is a decimal
separator ("150.5" parses to 150.5); the plausibility test is exactly
"within [100, 50000]"; and any parsed value outside that interval resolves
to absence, not an error (modelled from spec §4.1/§8). -/
theorem price_string_parsing :
    _parse_price_string "1.500" = some 1500
      ∧ _parse_price_string "1.500,00" = some 1500
      ∧ _parse_price_string "1,500.00" = some 1500
      ∧ _parse_price_string "1.234,56" = some (1234 + 56 / 100)
      ∧ _parse_price_string "1,234.56" = some (1234 + 56 / 100)
      ∧ _parse_price_string "150.5" = some (150 + 5 / 10)
      ∧ (∀ p, rangeOk p = true ↔ ((100 : ℚ) ≤ partsVal p ∧ partsVal p ≤ 50000))
      ∧ (∀ s p, parseNumericParts s = some p → rangeOk p = false →
          _parse_price_string s = none)
      ∧ (∀ s v, parseNumericString s = some v → v < 100 ∨ 50000 < v →
          _parse_price_string s = none) := by
  have hdrop : ∀ s p, parseNumericParts s = some p → rangeOk p = false →
      _parse_price_string s = none := by
    intro s p hp hfalse
    simp only [_parse_price_string, hp, hfalse, Bool.false_eq_true, if_false]
  have hex : ∀ s (p : Nat × Nat), parseNumericParts s = some p →
      rangeOk p = true → _parse_price_string s = some (partsVal p) := by
    intro s p hp htrue
    simp only [_parse_price_string, hp, htrue, if_true]
  refine ⟨?_, ?_, ?_, ?_, ?_, ?_, rangeOk_iff, hdrop, ?_⟩
  · rw [hex "1.500" (1500, 0) (by decide) (by decide)]
    norm_num [partsVal]
  · rw [hex "1.500,00" (150000, 2) (by decide) (by decide)]
    norm_num [partsVal]
  · rw [hex "1,500.00" (150000, 2) (by decide) (by decide)]
    norm_num [partsVal]
  · rw [hex "1.234,56" (123456, 2) (by decide) (by decide)]
    norm_num [partsVal]
  · rw [hex "1,234.56" (123456, 2) (by decide) (by decide)]
    norm_num [partsVal]
  · rw [hex "150.5" (1505, 1) (by decide) (by decide)]
    norm_num [partsVal]
  · intro s v hv hdisj
    unfold parseNumericString at hv
    cases hp : parseNumericParts s with
    | none => rw [hp] at hv; cases hv
    | some p =>
      rw [hp] at hv
      simp only [Option.map_some'] at hv
      cases hok : rangeOk p with
      | false => exact hdrop s p hp hok
      | true =>
        obtain ⟨h1, h2⟩ := (rangeOk_iff p).mp hok
        rw [Option.some.inj hv] at h1 h2
        rcases hdisj with hlt | hgt
        · exact absurd hlt (not_lt.mpr h1)
        · exact absurd hgt (not_lt.mpr h2)

/-- Witness for the range-rejection part of C5: "60.000" parses numerically
to the pair (60000, 0) — value 60000, above 50000 — so the price resolves to
absence. -/
theorem price_string_parsing_witness : _parse_price_string "60.000" = none :=
  price_string_parsing.2.2.2.2.2.2.2.1 "60.000" (60000, 0)
    (by decide) (by decide)

end HuizenZoeker
